import Mathlib

/-!
Verification of the documentation-mining pipeline of the
`pip-package-readme-mcp-server` repository.

Text is modelled as `List Char` (JavaScript strings over the code points
that occur in README text; the inputs exercised here are ASCII, where JS
UTF-16 length and code-point length agree).  Each definition is a direct
shallow embedding of one TypeScript function from `src/services/readme/*`
(current pipeline) or of the legacy `ReadmeParser` in
`src/services/readme-parser.ts`; JS regular-expression replacements are
embedded as equivalent recursive scans with the same left-to-right,
leftmost-match semantics.
-/

/-- JS `\s` whitespace class restricted to the ASCII characters that occur in
README text (space, tab, newline, carriage return, vertical tab, form feed). -/
def isJsWs (c : Char) : Bool :=
  c = ' ' || c = '\t' || c = '\n' || c = '\r' ||
  c = Char.ofNat 11 || c = Char.ofNat 12

/-- JS `\w` word-character class: letters, digits, underscore (ASCII). -/
def isWordChar (c : Char) : Bool :=
  ('a' ≤ c && c ≤ 'z') || ('A' ≤ c && c ≤ 'Z') || ('0' ≤ c && c ≤ '9') || c = '_'

/-- ASCII lower-casing of one character, as performed by JS `toLowerCase`
on the ASCII range. -/
def lowerChar (c : Char) : Char :=
  match c with
  | 'A' => 'a' | 'B' => 'b' | 'C' => 'c' | 'D' => 'd' | 'E' => 'e'
  | 'F' => 'f' | 'G' => 'g' | 'H' => 'h' | 'I' => 'i' | 'J' => 'j'
  | 'K' => 'k' | 'L' => 'l' | 'M' => 'm' | 'N' => 'n' | 'O' => 'o'
  | 'P' => 'p' | 'Q' => 'q' | 'R' => 'r' | 'S' => 's' | 'T' => 't'
  | 'U' => 'u' | 'V' => 'v' | 'W' => 'w' | 'X' => 'x' | 'Y' => 'y'
  | 'Z' => 'z'
  | other => other

/-- ASCII upper-casing of one character, as performed by JS `toUpperCase`
on the ASCII range. -/
def upperChar (c : Char) : Char :=
  match c with
  | 'a' => 'A' | 'b' => 'B' | 'c' => 'C' | 'd' => 'D' | 'e' => 'E'
  | 'f' => 'F' | 'g' => 'G' | 'h' => 'H' | 'i' => 'I' | 'j' => 'J'
  | 'k' => 'K' | 'l' => 'L' | 'm' => 'M' | 'n' => 'N' | 'o' => 'O'
  | 'p' => 'P' | 'q' => 'Q' | 'r' => 'R' | 's' => 'S' | 't' => 'T'
  | 'u' => 'U' | 'v' => 'V' | 'w' => 'W' | 'x' => 'X' | 'y' => 'Y'
  | 'z' => 'Z'
  | other => other

/-- JS `toLowerCase` over a whole string (ASCII range). -/
def toLowerStr (cs : List Char) : List Char := cs.map lowerChar

/-- `a.startsWith b` on strings: `needle` is a prefix of `hay`. -/
def startsWithStr : List Char → List Char → Bool
  | [], _ => true
  | _ :: _, [] => false
  | n :: ns, h :: hs => n = h && startsWithStr ns hs

/-- JS `hay.includes(needle)`: substring occurrence test. -/
def containsSub (needle : List Char) : List Char → Bool
  | [] => startsWithStr needle []
  | c :: rest => startsWithStr needle (c :: rest) || containsSub needle rest

/-- JS `String.prototype.trim`, dropping leading whitespace. -/
def trimLeft (cs : List Char) : List Char := cs.dropWhile isJsWs

/-- JS `String.prototype.trim`, dropping trailing whitespace. -/
def trimRight (cs : List Char) : List Char := (cs.reverse.dropWhile isJsWs).reverse

/-- JS `String.prototype.trim`. -/
def trimStr (cs : List Char) : List Char := trimRight (trimLeft cs)

/-- JS `text.split('\n')`: always at least one (possibly empty) line. -/
def splitLines : List Char → List (List Char)
  | [] => [[]]
  | c :: rest =>
    if c = '\n' then [] :: splitLines rest
    else
      match splitLines rest with
      | l :: ls => (c :: l) :: ls
      | [] => [[c]]

/-- The markdown fence marker, three backticks. -/
def fenceMark : List Char := "```".data

/-- The domain entity produced by the pipeline (`UsageExample` in
`src/types/index.ts`): title, optional description, code, language. -/
structure UsageExample where
  title : List Char
  description : Option (List Char)
  code : List Char
  language : List Char
deriving DecidableEq, Repr

namespace ExampleExtractor

/-- `README_CONFIG.MIN_CODE_BLOCK_LENGTH` from `src/config/constants.ts`. -/
def MIN_CODE_BLOCK_LENGTH : Nat := 10

/-- `README_CONFIG.MAX_CODE_BLOCK_LENGTH` from `src/config/constants.ts`. -/
def MAX_CODE_BLOCK_LENGTH : Nat := 5000

/-- `README_CONFIG.MAX_EXAMPLES` from `src/config/constants.ts`. -/
def MAX_EXAMPLES : Nat := 20

/-- `ExampleExtractor.extractLanguage`: on a (trimmed) fence line, the regex
`^```(\w+)` captures the maximal word-character run after the backticks;
if it matches, the tag lower-cased is returned, otherwise `'python'`. -/
def extractLanguage (fenceLine : List Char) : List Char :=
  if startsWithStr fenceMark fenceLine then
    let tag := (fenceLine.drop 3).takeWhile isWordChar
    if tag = [] then "python".data else toLowerStr tag
  else "python".data

/-- `ExampleExtractor.isRelevantLanguage`: the language (lower-cased) must be
one of `python, py, bash, shell, sh, text` or the empty string. -/
def isRelevantLanguage (language : List Char) : Bool :=
  ["python".data, "py".data, "bash".data, "shell".data, "sh".data,
   "text".data, ([] : List Char)].contains (toLowerStr language)

/-- `ExampleExtractor.isOutputOnly`: a block is treated as captured output
when it contains none of the Python-keyword substrings. -/
def isOutputOnly (code : List Char) : Bool :=
  !(["import".data, "from".data, "def".data, "class".data, "if".data,
     "for".data, "while".data, "try".data, "with".data, "=".data].any
      (fun kw => containsSub kw code))

/-- `ExampleExtractor.isUsageSection`: the section name contains one of the
usage keywords as a substring. -/
def isUsageSection (sectionName : List Char) : Bool :=
  ["usage".data, "example".data, "quickstart".data, "getting started".data,
   "how to".data, "tutorial".data].any (fun kw => containsSub kw sectionName)

/-- `ExampleExtractor.isSimpleUsageExample` helper: the anchored regex
`^\w+\.\w+\(` — a word run, a dot, a word run, an opening parenthesis. -/
def matchesCallAnchored (cs : List Char) : Bool :=
  match cs.takeWhile isWordChar, cs.dropWhile isWordChar with
  | _ :: _, '.' :: r2 =>
    match r2.takeWhile isWordChar, r2.dropWhile isWordChar with
    | _ :: _, '(' :: _ => true
    | _, _ => false
  | _, _ => false

/-- `ExampleExtractor.hasUsageIndicators`: import/from substring, usage
section, or a non-equality assignment. -/
def hasUsageIndicators (code : List Char) (sectionName : List Char) : Bool :=
  containsSub "import ".data code || containsSub "from ".data code ||
  isUsageSection sectionName ||
  (containsSub "=".data code && !containsSub "==".data code)

/-- `ExampleExtractor.isLikelyUsageExample`: length bounds on the trimmed
code, relevant language, not output-only, and a usage indicator. -/
def isLikelyUsageExample (code language sectionName : List Char) : Bool :=
  let trimmedCode := trimStr code
  if trimmedCode.length < MIN_CODE_BLOCK_LENGTH ||
     trimmedCode.length > MAX_CODE_BLOCK_LENGTH then false
  else if !language.isEmpty && !isRelevantLanguage language then false
  else if isOutputOnly trimmedCode then false
  else hasUsageIndicators trimmedCode sectionName

/-- `ExampleExtractor.formatTitle`: split on single spaces, capitalize the
first character of each word, re-join with single spaces. -/
def formatTitle (sectionName : List Char) : List Char :=
  let words := sectionName.splitOn ' '
  let capped := words.map (fun w =>
    match w with
    | [] => []
    | c :: rest => upperChar c :: rest)
  (capped.intersperse [' ']).flatten

/-- A line whose trimmed form matches `^#+\s`. -/
def isHeadingLine (t : List Char) : Bool :=
  match t with
  | '#' :: _ =>
    match t.dropWhile (· = '#') with
    | c :: _ => isJsWs c
    | [] => false
  | _ => false

/-- The section name extracted from a heading line: the regex replacement
`^#+\s*` removed, lower-cased. -/
def sectionOfHeading (t : List Char) : List Char :=
  toLowerStr ((t.dropWhile (· = '#')).dropWhile isJsWs)

/-- The mutable loop state of `extractBlockExamples`. -/
structure ScanState where
  sec : List Char
  inBlock : Bool
  body : List Char
  lang : List Char
deriving Repr

/-- Initial state of the `extractBlockExamples` loop. -/
def initState : ScanState := ⟨[], false, [], []⟩

/-- The example pushed when a fence closes and the classifier accepts. -/
def mkBlockExample (st : ScanState) : UsageExample :=
  { title := if formatTitle st.sec = [] then "Code Example".data else formatTitle st.sec
    description := none
    code := trimStr st.body
    language := if st.lang = [] then "python".data else st.lang }

/-- One-line state transition of the `extractBlockExamples` loop (section
tracking, fence toggling, body accumulation). -/
def stepState (st : ScanState) (line : List Char) : ScanState :=
  let t := trimStr line
  let st1 := if isHeadingLine t then { st with sec := sectionOfHeading t } else st
  if startsWithStr fenceMark t then
    if !st1.inBlock then { st1 with inBlock := true, body := [], lang := extractLanguage t }
    else { st1 with inBlock := false, body := [] }
  else if st1.inBlock then { st1 with body := st1.body ++ line ++ ['\n'] }
  else st1

/-- The examples emitted by one line of the loop (nonempty only when a fence
closes on an accepted block). -/
def stepEmit (st : ScanState) (line : List Char) : List UsageExample :=
  let t := trimStr line
  let st1 := if isHeadingLine t then { st with sec := sectionOfHeading t } else st
  if startsWithStr fenceMark t then
    if !st1.inBlock then []
    else if isLikelyUsageExample st1.body st1.lang st1.sec then [mkBlockExample st1]
    else []
  else []

/-- The `extractBlockExamples` loop over the lines of the document. -/
def scanLines : List (List Char) → ScanState → List UsageExample
  | [], _ => []
  | line :: rest, st => stepEmit st line ++ scanLines rest (stepState st line)

/-- The final loop state after scanning a list of lines. -/
def stateAfter : List (List Char) → ScanState → ScanState
  | [], st => st
  | line :: rest, st => stateAfter rest (stepState st line)

/-- `ExampleExtractor.extractBlockExamples`. -/
def extractBlockExamples (readmeContent : List Char) : List UsageExample :=
  scanLines (splitLines readmeContent) initState

/-- The backtick character. -/
def btk : Char := Char.ofNat 96

/-- Scanner for the global regex `` `([^`]+)` ``: the state is `none`
outside a span and `some acc` after an opening backtick with the content
read so far (reversed).  A backtick met on empty content re-opens at that
backtick (the regex fails at the previous opener and retries from the next
position); a backtick met on nonempty content closes a match. -/
def inlineSpansGo : List Char → Option (List Char) → List (List Char)
  | [], _ => []
  | c :: rest, none =>
    if c = btk then inlineSpansGo rest (some []) else inlineSpansGo rest none
  | c :: rest, some acc =>
    if c = btk then
      match acc with
      | [] => inlineSpansGo rest (some [])
      | _ :: _ => acc.reverse :: inlineSpansGo rest none
    else inlineSpansGo rest (some (c :: acc))

/-- The contents of the inline code spans matched by the global regex
`` `([^`]+)` ``, in match order. -/
def inlineSpans (cs : List Char) : List (List Char) :=
  inlineSpansGo cs none

/-- `ExampleExtractor.isSimpleUsageExample`. -/
def isSimpleUsageExample (code : List Char) : Bool :=
  containsSub "import ".data code ||
  (containsSub "=".data code && !containsSub "==".data code) ||
  matchesCallAnchored code

/-- `ExampleExtractor.extractInlineExamples`: each qualifying inline span
becomes a `Quick Example` in Python. -/
def extractInlineExamples (content : List Char) : List UsageExample :=
  (inlineSpans content).filterMap (fun sp =>
    let code := trimStr sp
    if isSimpleUsageExample code then
      some { title := "Quick Example".data, description := none
             code := code, language := "python".data }
    else none)

/-- `ExampleExtractor.extractUsageExamples`: block examples then inline
examples, capped to `MAX_EXAMPLES`.  The embedded body is total, so the
`catch` branch of the source (which returns `[]`) is unreachable. -/
def extractUsageExamples (readmeContent : List Char) : List UsageExample :=
  (extractBlockExamples readmeContent ++ extractInlineExamples readmeContent).take
    MAX_EXAMPLES

end ExampleExtractor

/-- JS `replace(/\s+/g, ' ')` as a scanner; the flag records whether the
previous character was part of an already-emitted whitespace run. -/
def collapseWsGo : List Char → Bool → List Char
  | [], _ => []
  | c :: rest, inRun =>
    if isJsWs c then
      if inRun then collapseWsGo rest true else ' ' :: collapseWsGo rest true
    else c :: collapseWsGo rest false

/-- JS `replace(/\s+/g, ' ')`: every whitespace run becomes one space. -/
def collapseWs (cs : List Char) : List Char := collapseWsGo cs false

/-- The double-quote character. -/
def quoteChar : Char := Char.ofNat 34

/-- The single-quote (apostrophe) character. -/
def apostChar : Char := Char.ofNat 39

/-- A JS multiline-`$`/`^` line terminator (ASCII). -/
def isLineTerm (c : Char) : Bool := c = '\n' || c = '\r'

namespace ExampleProcessor

/-- `README_CONFIG.IDEAL_EXAMPLE_LENGTH` from `src/config/constants.ts`. -/
def IDEAL_EXAMPLE_LENGTH : Nat := 200

/-- `ExampleProcessor.normalizeCode`: collapse whitespace runs to one space,
unify both quote characters to the double quote, trim, lower-case. -/
def normalizeCode (code : List Char) : List Char :=
  toLowerStr (trimStr ((collapseWs code).map
    (fun c => if c = apostChar || c = quoteChar then quoteChar else c)))

/-- The key a `UsageExample` is deduplicated by. -/
def keyOf (e : UsageExample) : List Char := normalizeCode e.code

/-- The loop of `ExampleProcessor.deduplicateExamples` with its `seenCodes`
set modelled as the list of keys inserted so far. -/
def dedupGo : List UsageExample → List (List Char) → List UsageExample
  | [], _ => []
  | e :: rest, seen =>
    if keyOf e ∈ seen then dedupGo rest seen
    else e :: dedupGo rest (keyOf e :: seen)

/-- `ExampleProcessor.deduplicateExamples`. -/
def deduplicateExamples (examples : List UsageExample) : List UsageExample :=
  dedupGo examples []

/-- `ExampleProcessor.isGoodTitle`. -/
def isGoodTitle (title : List Char) : Bool :=
  ["usage".data, "example".data, "quickstart".data, "basic".data,
   "simple".data, "getting started".data].any
    (fun kw => containsSub kw (toLowerStr title))

/-- The unanchored regex `/\w+\.\w+\(/`: some position starts a word run,
a dot, a word run, an opening parenthesis. -/
def containsCallPattern : List Char → Bool
  | [] => false
  | c :: rest =>
    ExampleExtractor.matchesCallAnchored (c :: rest) || containsCallPattern rest

/-- `ExampleProcessor.calculateRelevanceScore`, the additive relevance
heuristic (scores may go negative). -/
def calculateRelevanceScore (e : UsageExample) : Int :=
  let s0 : Int := 0
  let s1 := if containsSub "import ".data e.code then s0 + 50 else s0
  let s2 := if containsSub "from ".data e.code then s1 + 45 else s1
  let s3 := if containsSub "=".data e.code && !containsSub "==".data e.code
            then s2 + 30 else s2
  let s4 := if containsCallPattern e.code then s3 + 25 else s3
  let s5 := if !e.title.isEmpty && isGoodTitle e.title then s4 + 20 else s4
  let s6 := match e.description with
            | some (_ :: _) => s5 + 15
            | _ => s5
  let len := e.code.length
  if 50 ≤ len && len ≤ IDEAL_EXAMPLE_LENGTH then s6 + 10
  else if IDEAL_EXAMPLE_LENGTH < len then
    s6 - ((len - IDEAL_EXAMPLE_LENGTH) / 100 : Nat)
  else s6

/-- Stable descending insertion for `sortExamplesByRelevance`: an element is
placed before the first element of not-larger score, so the embedding is the
unique stable descending sort that JS `Array.prototype.sort` (stable since
ES2019) produces under the comparator `b._score - a._score`. -/
def insertDesc (e : UsageExample) : List UsageExample → List UsageExample
  | [] => [e]
  | x :: xs =>
    if calculateRelevanceScore x ≤ calculateRelevanceScore e then e :: x :: xs
    else x :: insertDesc e xs

/-- `ExampleProcessor.sortExamplesByRelevance`. -/
def sortExamplesByRelevance (examples : List UsageExample) : List UsageExample :=
  examples.foldr insertDesc []

end ExampleProcessor

namespace ReadmeContentCleaner

/-- The emission of a completed newline run for `replace(/\n{3,}/g, '\n\n')`:
runs of three or more newlines become exactly two. -/
def emitNl (k : Nat) : List Char := List.replicate (min k 2) '\n'

/-- Scanner for `replace(/\n{3,}/g, '\n\n')`; `k` counts the newlines of the
still-open run. -/
def collapseNlGo : List Char → Nat → List Char
  | [], k => emitNl k
  | c :: rest, k =>
    if c = '\n' then collapseNlGo rest (k + 1)
    else emitNl k ++ c :: collapseNlGo rest 0

/-- Step 1 of `cleanReadmeContent`: `replace(/\n{3,}/g, '\n\n')`. -/
def collapseNl (cs : List Char) : List Char := collapseNlGo cs 0

/-- A space or tab, the character class of `/[ \t]+$/gm`. -/
def isSpTab (c : Char) : Bool := c = ' ' || c = '\t'

/-- Scanner for `replace(/[ \t]+$/gm, '')`; `pend` is the reversed run of
spaces and tabs whose fate (kept or dropped) is not yet known. -/
def stripTrailGo : List Char → List Char → List Char
  | [], _ => []
  | c :: rest, pend =>
    if isSpTab c then stripTrailGo rest (c :: pend)
    else if isLineTerm c then c :: stripTrailGo rest []
    else pend.reverse ++ c :: stripTrailGo rest []

/-- Step 2 of `cleanReadmeContent`: `replace(/[ \t]+$/gm, '')`, removing
trailing spaces and tabs before each line terminator and at end of input. -/
def stripTrail (cs : List Char) : List Char := stripTrailGo cs []

/-- Step 3 of `cleanReadmeContent`: `replace(/\r\n/g, '\n')`. -/
def crlfToLf : List Char → List Char
  | [] => []
  | '\r' :: '\n' :: rest => '\n' :: crlfToLf rest
  | c :: rest => c :: crlfToLf rest

/-- The nearest `-->` terminator for a non-greedy comment match: returns the
remainder after it, or `none` when no terminator follows. -/
def skipToCloseCmt : (l : List Char) → Option { r : List Char // r.length ≤ l.length }
  | [] => none
  | c :: rest =>
    if startsWithStr "-->".data (c :: rest) then
      some ⟨rest.drop 2, by simp [List.length_drop]; omega⟩
    else
      match skipToCloseCmt rest with
      | some ⟨r, hr⟩ => some ⟨r, by simp; omega⟩
      | none => none

/-- Step 4 of `cleanReadmeContent`: `replace(/<!--[\s\S]*?-->/g, '')` — each
`<!--` with a later `-->` is removed through the nearest such terminator; an
unterminated `<!--` matches nothing (and then nothing later can match). -/
def removeCmtGo : Nat → List Char → List Char
  | 0, cs => cs
  | fuel + 1, cs =>
    match cs with
    | [] => []
    | c :: rest =>
      if startsWithStr "<!--".data (c :: rest) then
        match skipToCloseCmt (rest.drop 3) with
        | some ⟨rest2, _⟩ => removeCmtGo fuel rest2
        | none => c :: rest
      else c :: removeCmtGo fuel rest

/-- Step 4 driver: the fuel (the input length) strictly exceeds the length
of every recursive argument, so the fuel-exhausted base case is never
reached and the scan is exactly the non-greedy global replacement. -/
def removeHtmlComments (cs : List Char) : List Char := removeCmtGo cs.length cs

/-- A horizontal-rule character, the class `[-*_]`. -/
def isHrChar (c : Char) : Bool := c = '-' || c = '*' || c = '_'

/-- Splits a whitespace run at its LAST line terminator: `l = pre ++ tpost`
with `tpost` starting at that terminator; `none` when no terminator occurs.
This is where the trailing `\s*$` of the horizontal-rule regex must stop
when the match is not at end of input. -/
def splitAtLastTerm : (l : List Char) →
    Option { pb : List Char × List Char //
             pb.1.length + pb.2.length = l.length ∧ 1 ≤ pb.2.length }
  | [] => none
  | c :: rest =>
    match splitAtLastTerm rest with
    | some ⟨(a, b), h⟩ => some ⟨(c :: a, b), by simp at h ⊢; omega⟩
    | none =>
      if isLineTerm c then some ⟨([], c :: rest), by simp⟩ else none

/-- One attempted match of `/^\s*[-*_]{3,}\s*$/` at a `^` position: leading
whitespace, at least three rule characters, then whitespace up to a `$`
position (before a line terminator, or end of input).  Returns the input
remaining after the match together with whether the last consumed character
was a line terminator (which decides whether the next position is again a
`^` position). -/
def hrMatch (cs : List Char) :
    Option ({ r : List Char // r.length < cs.length } × Bool) :=
  let w1 := cs.takeWhile isJsWs
  let r1 := cs.dropWhile isJsWs
  let hr := r1.takeWhile isHrChar
  let r2 := r1.dropWhile isHrChar
  if h3 : hr.length < 3 then none
  else
    let w2 := r2.takeWhile isJsWs
    let r3 := r2.dropWhile isJsWs
    match hw : r3 with
    | [] =>
      some (⟨[], by
        have e1 := List.takeWhile_append_dropWhile (p := isJsWs) (l := cs)
        have e2 := List.takeWhile_append_dropWhile (p := isHrChar) (l := r1)
        have hlen : cs.length = w1.length + hr.length + r2.length := by
          calc cs.length = (w1 ++ r1).length := by rw [e1]
          _ = w1.length + (hr ++ r2).length := by rw [e2]; simp
          _ = w1.length + hr.length + r2.length := by simp; omega
        simp only [List.length_nil]
        omega⟩,
        match w2.getLast? with
        | some d => isLineTerm d
        | none => false)
    | _ :: _ =>
      match splitAtLastTerm w2 with
      | some ⟨(pre, tpost), hsp⟩ =>
        some (⟨tpost ++ r3, by
          have e1 := List.takeWhile_append_dropWhile (p := isJsWs) (l := cs)
          have e2 := List.takeWhile_append_dropWhile (p := isHrChar) (l := r1)
          have e3 := List.takeWhile_append_dropWhile (p := isJsWs) (l := r2)
          have hlen : cs.length =
              w1.length + hr.length + w2.length + r3.length := by
            calc cs.length = (w1 ++ r1).length := by rw [e1]
            _ = w1.length + (hr ++ r2).length := by rw [e2]; simp
            _ = w1.length + (hr ++ (w2 ++ r3)).length := by rw [e3]
            _ = w1.length + hr.length + w2.length + r3.length := by simp; omega
          simp only [List.length_append]
          simp at hsp
          omega⟩,
          match pre.getLast? with
          | some d => isLineTerm d
          | none => false)
      | none => none

/-- Scanner for `replace(/^\s*[-*_]{3,}\s*$/gm, '---')`; `atStart` records
whether the current position is a `^` position (start of input or right
after a line terminator). -/
def hrGo : Nat → List Char → Bool → List Char
  | 0, cs, _ => cs
  | fuel + 1, cs, atStart =>
    match cs with
    | [] => []
    | c :: rest =>
      if atStart then
        match hrMatch (c :: rest) with
        | some (⟨r, _⟩, lastTerm) => '-' :: '-' :: '-' :: hrGo fuel r lastTerm
        | none => c :: hrGo fuel rest (isLineTerm c)
      else c :: hrGo fuel rest (isLineTerm c)

/-- First half of `cleanMarkdownArtifacts`: collapse horizontal-rule
variants to a canonical `---`.  The fuel (the input length) strictly
exceeds every recursive argument's length, so the fuel-exhausted base case
is never reached. -/
def hruleReplace (cs : List Char) : List Char := hrGo cs.length cs true

/-- A character of the table-separator class `[\s\-:|]`. -/
def isTableChar (c : Char) : Bool :=
  isJsWs c || c = '-' || c = ':' || c = '|'

/-- Splits a run of table characters at its LAST `|`: `l = pre ++ '|' :: post`;
`none` when the run holds no `|`.  The greedy inner `[\s\-:|]+` of the table
regex backtracks exactly to this last bar. -/
def splitAtLastBar : (l : List Char) →
    Option { pb : List Char × List Char //
             pb.1.length + pb.2.length + 1 = l.length }
  | [] => none
  | c :: rest =>
    match splitAtLastBar rest with
    | some ⟨(a, b), h⟩ => some ⟨(c :: a, b), by simp at h ⊢; omega⟩
    | none => if c = '|' then some ⟨([], rest), by simp⟩ else none

/-- Scanner for `replace(/\|[\s\-:|]+\|/g, m => m.replace(/\s+/g, ' '))`:
from an opening `|`, the maximal run of table characters is cut at its last
`|` (the inner part must be nonempty), and the whitespace runs of the
matched slice are collapsed to single spaces. -/
def tableGo : Nat → List Char → List Char
  | 0, cs => cs
  | fuel + 1, cs =>
    match cs with
    | [] => []
    | c :: rest =>
      if c = '|' then
        let run := rest.takeWhile isTableChar
        match splitAtLastBar run with
        | some ⟨(pre, post), _⟩ =>
          match pre with
          | [] => c :: tableGo fuel rest
          | _ :: _ =>
            collapseWs (c :: pre ++ ['|']) ++
              tableGo fuel (post ++ rest.dropWhile isTableChar)
        | none => c :: tableGo fuel rest
      else c :: tableGo fuel rest

/-- Second half of `cleanMarkdownArtifacts` (driver): the fuel (the input
length) strictly exceeds every recursive argument's length, so the
fuel-exhausted base case is never reached. -/
def tableReplace (cs : List Char) : List Char := tableGo cs.length cs

/-- Scanner for `replace(/\[([^\]]*)\]\(\s*\)/g, '$1')`: an empty markdown
link collapses to its link text. -/
def linkGo : Nat → List Char → List Char
  | 0, cs => cs
  | fuel + 1, cs =>
    match cs with
    | [] => []
    | c :: rest =>
      if c = '[' then
        let content := rest.takeWhile (fun d => d ≠ ']')
        match rest.dropWhile (fun d => d ≠ ']') with
        | ']' :: '(' :: r2 =>
          match r2.dropWhile isJsWs with
          | ')' :: r4 => content ++ linkGo fuel r4
          | _ => c :: linkGo fuel rest
        | _ => c :: linkGo fuel rest
      else c :: linkGo fuel rest

/-- Empty-link replacement driver: the fuel (the input length) strictly
exceeds every recursive argument's length, so the fuel-exhausted base case
is never reached. -/
def linkReplace (cs : List Char) : List Char := linkGo cs.length cs

/-- `ReadmeContentCleaner.cleanMarkdownArtifacts`: horizontal rules, table
separators, then empty links. -/
def cleanMarkdownArtifacts (content : List Char) : List Char :=
  linkReplace (tableReplace (hruleReplace content))

/-- `ReadmeContentCleaner.cleanReadmeContent`: the falsiness check on the
input, then the five regex steps in source order and the final trim.  The
embedded body is total, so the `catch` branch of the source (which returns
the original input) is unreachable. -/
def cleanReadmeContent (content : List Char) : List Char :=
  if content.isEmpty then []
  else
    trimStr (cleanMarkdownArtifacts (removeHtmlComments (crlfToLf
      (stripTrail (collapseNl content)))))

end ReadmeContentCleaner

namespace ReadmeService

/-- `ReadmeService.cleanReadmeContent` (delegates to the content cleaner). -/
def cleanReadmeContent (content : List Char) : List Char :=
  ReadmeContentCleaner.cleanReadmeContent content

/-- `ReadmeService.extractUsageExamples`: extraction, deduplication, then
relevance sorting. -/
def extractUsageExamples (readmeContent : List Char) : List UsageExample :=
  ExampleProcessor.sortExamplesByRelevance
    (ExampleProcessor.deduplicateExamples
      (ExampleExtractor.extractUsageExamples readmeContent))

end ReadmeService

namespace ReadmeParser

/-- The alias table of the legacy `ReadmeParser.extractLanguage`. -/
def languageMap : List (List Char × List Char) :=
  [("py".data, "python".data), ("python3".data, "python".data),
   ("bash".data, "bash".data), ("shell".data, "bash".data),
   ("sh".data, "bash".data), ("console".data, "bash".data),
   ("terminal".data, "bash".data), ("cmd".data, "bash".data),
   ("yaml".data, "yaml".data), ("yml".data, "yaml".data),
   ("json".data, "json".data), ("toml".data, "toml".data),
   ("ini".data, "ini".data), ("cfg".data, "ini".data),
   ("conf".data, "ini".data)]

/-- Legacy `ReadmeParser.extractLanguage`: the captured tag is lower-cased
and mapped through the alias table; unmapped tags pass through; a missing
tag defaults to `python`. -/
def extractLanguage (codeBlockLine : List Char) : List Char :=
  if startsWithStr fenceMark codeBlockLine then
    let tag := (codeBlockLine.drop 3).takeWhile isWordChar
    if tag = [] then "python".data
    else
      let lang := toLowerStr tag
      match languageMap.find? (fun p => p.1 == lang) with
      | some p => p.2
      | none => lang
  else "python".data

/-- Legacy `ReadmeParser.isUsageSection`: fourteen usage-section names,
matched by substring in either direction. -/
def isUsageSection (sectionName : List Char) : Bool :=
  ["usage".data, "examples".data, "example".data, "quick start".data,
   "quickstart".data, "getting started".data, "tutorial".data,
   "how to use".data, "basic usage".data, "installation and usage".data,
   "api usage".data, "code example".data, "sample code".data,
   "demo".data].any
    (fun s => containsSub s sectionName || containsSub sectionName s)

/-- An ASCII digit. -/
def isDigitChar (c : Char) : Bool := '0' ≤ c && c ≤ '9'

/-- The leading `[>\s]*` of the legacy output-line patterns, dropped. -/
def dropGtWs (l : List Char) : List Char :=
  l.dropWhile (fun c => c = '>' || isJsWs c)

/-- One of the legacy `outputPatterns` matches the (trimmed) line: after
`[>\s]*`, a digit, `|`, `+`, `=`, `-`, or a word run followed by `:`. -/
def outputLinePat (t : List Char) : Bool :=
  match dropGtWs t with
  | [] => false
  | c :: rest =>
    isDigitChar c || c = '|' || c = '+' || c = '=' || c = '-' ||
    (isWordChar c &&
      (match rest.dropWhile isWordChar with
       | ':' :: _ => true
       | _ => false))

/-- `\s+` then a word character (the `\s+\w+` tails of the code patterns). -/
def wsThenWord (r : List Char) : Bool :=
  !(r.takeWhile isJsWs).isEmpty &&
  (match r.dropWhile isJsWs with
   | c :: _ => isWordChar c
   | [] => false)

/-- `\s+` then a literal (the `\s+install` tail of `^pip\s+install`). -/
def wsThenLit (lit : List Char) (r : List Char) : Bool :=
  !(r.takeWhile isJsWs).isEmpty && startsWithStr lit (r.dropWhile isJsWs)

/-- One of the legacy `codePatterns` matches the (trimmed) line. -/
def codeLinePat (t : List Char) : Bool :=
  (startsWithStr "import".data t && wsThenWord (t.drop 6)) ||
  (startsWithStr "from".data t && wsThenWord (t.drop 4)) ||
  (startsWithStr "def".data t && wsThenWord (t.drop 3)) ||
  (startsWithStr "class".data t && wsThenWord (t.drop 5)) ||
  (startsWithStr "pip".data t && wsThenLit "install".data (t.drop 3)) ||
  (startsWithStr "python".data t && !((t.drop 6).takeWhile isJsWs).isEmpty) ||
  (!(t.takeWhile isWordChar).isEmpty &&
    (match (t.dropWhile isWordChar).dropWhile isJsWs with
     | '=' :: _ => true
     | _ => false))

/-- Legacy `ReadmeParser.isOutputOnly`: over the trimmed block's lines,
count output-looking and code-looking (trimmed, nonempty) lines — a line
matching an output pattern is not also counted as code — and report output
when `outputLines > codeLines` and `outputLines > lines.length * 0.6`
(the float comparison is exact at these magnitudes, embedded as
`5 * outputLines > 3 * lines.length`). -/
def isOutputOnly (code : List Char) : Bool :=
  let lines := splitLines (trimStr code)
  let ts := (lines.map trimStr).filter (fun t => !t.isEmpty)
  let outLines := ts.countP outputLinePat
  let codeLines := ts.countP (fun t => !outputLinePat t && codeLinePat t)
  decide (outLines > codeLines) && decide (5 * outLines > 3 * lines.length)

/-- The relevant-language list of the legacy classifier. -/
def relevantLanguages : List (List Char) :=
  ["python".data, "bash".data, "yaml".data, "json".data, "toml".data,
   "ini".data]

/-- Legacy `ReadmeParser.isLikelyUsageExample`: length bounds, relevant
language, not output-only, then acceptance for python, for bash install
commands, for configuration languages, or for a usage-vocabulary title. -/
def isLikelyUsageExample (code language title : List Char) : Bool :=
  if (trimStr code).length < 10 || (trimStr code).length > 5000 then false
  else if !language.isEmpty && !(relevantLanguages.contains language) then false
  else if isOutputOnly code then false
  else if language = "python".data then true
  else if language = "bash".data &&
          (containsSub "pip install".data code ||
           containsSub "pipx install".data code) then true
  else if ["yaml".data, "json".data, "toml".data, "ini".data].contains language
       then true
  else if !title.isEmpty && isUsageSection (toLowerStr title) then true
  else false

end ReadmeParser

/-- Modelled from the spec (§4.4): the deduplication contract in the spec's
words — keep the first example per normalized key, dropping every later
example whose key already occurred. -/
def keepFirstByKeySpec (l : List UsageExample) : List UsageExample :=
  match l with
  | [] => []
  | e :: rest =>
    e :: keepFirstByKeySpec
      (rest.filter (fun x => ExampleProcessor.keyOf x ≠ ExampleProcessor.keyOf e))
termination_by l.length
decreasing_by
  exact Nat.lt_succ_of_le (List.length_filter_le _ _)

/-- Modelled from the spec (§4.4): the relevance score written as the
spec's additive total of independent contributions. -/
def specRelevanceScore (e : UsageExample) : Int :=
  (if containsSub "import ".data e.code then (50 : Int) else 0) +
  (if containsSub "from ".data e.code then (45 : Int) else 0) +
  (if containsSub "=".data e.code && !containsSub "==".data e.code
   then (30 : Int) else 0) +
  (if ExampleProcessor.containsCallPattern e.code then (25 : Int) else 0) +
  (if !e.title.isEmpty && ExampleProcessor.isGoodTitle e.title
   then (20 : Int) else 0) +
  (match e.description with
   | some (_ :: _) => (15 : Int)
   | _ => 0) +
  (if 50 ≤ e.code.length && e.code.length ≤ 200 then (10 : Int) else 0) -
  (if 200 < e.code.length then (((e.code.length - 200) / 100 : Nat) : Int) else 0)

/-! ## Helper lemmas -/

theorem collapseNlGo_min (cs : List Char) :
    ∀ k, ReadmeContentCleaner.collapseNlGo cs k =
      ReadmeContentCleaner.collapseNlGo cs (min k 2) := by
  induction cs with
  | nil =>
    intro k
    simp only [ReadmeContentCleaner.collapseNlGo, ReadmeContentCleaner.emitNl]
    have h : min (min k 2) 2 = min k 2 := by omega
    rw [h]
  | cons c rest ih =>
    intro k
    by_cases hc : c = '\n'
    · simp only [ReadmeContentCleaner.collapseNlGo, hc, if_pos rfl]
      rw [ih (k + 1), ih (min k 2 + 1)]
      have h : min (min k 2 + 1) 2 = min (k + 1) 2 := by omega
      rw [h]
      simp
    · simp only [ReadmeContentCleaner.collapseNlGo, if_neg hc,
        ReadmeContentCleaner.emitNl]
      have h : min (min k 2) 2 = min k 2 := by omega
      rw [h]

theorem collapseNlGo_replicate (m : Nat) (X : List Char) (j : Nat) :
    ReadmeContentCleaner.collapseNlGo (List.replicate m '\n' ++ X) j =
      ReadmeContentCleaner.collapseNlGo X (j + m) := by
  induction m generalizing j with
  | zero => simp
  | succ n ih =>
    have h1 : ReadmeContentCleaner.collapseNlGo
        (List.replicate (n + 1) '\n' ++ X) j =
        ReadmeContentCleaner.collapseNlGo (List.replicate n '\n' ++ X) (j + 1) := by
      simp [List.replicate_succ, ReadmeContentCleaner.collapseNlGo]
    rw [h1, ih (j + 1)]
    congr 1
    omega

theorem collapseNlGo_idem (cs : List Char) :
    ∀ k, k ≤ 2 →
      ReadmeContentCleaner.collapseNlGo (ReadmeContentCleaner.collapseNlGo cs k) 0 =
        ReadmeContentCleaner.collapseNlGo cs k := by
  induction cs with
  | nil =>
    intro k hk
    show ReadmeContentCleaner.collapseNlGo (ReadmeContentCleaner.emitNl k) 0 =
      ReadmeContentCleaner.emitNl k
    have he : ReadmeContentCleaner.emitNl k = List.replicate k '\n' := by
      simp only [ReadmeContentCleaner.emitNl]
      congr 1
      omega
    rw [he]
    have h2 := collapseNlGo_replicate k ([] : List Char) 0
    simp only [List.append_nil] at h2
    rw [h2]
    simp only [ReadmeContentCleaner.collapseNlGo, Nat.zero_add]
    rw [he]
  | cons c rest ih =>
    intro k hk
    by_cases hc : c = '\n'
    · subst hc
      show ReadmeContentCleaner.collapseNlGo
          (ReadmeContentCleaner.collapseNlGo rest (k + 1)) 0 =
        ReadmeContentCleaner.collapseNlGo rest (k + 1)
      rw [collapseNlGo_min rest (k + 1)]
      exact ih (min (k + 1) 2) (by omega)
    · show ReadmeContentCleaner.collapseNlGo
          (ReadmeContentCleaner.collapseNlGo (c :: rest) k) 0 =
        ReadmeContentCleaner.collapseNlGo (c :: rest) k
      simp only [ReadmeContentCleaner.collapseNlGo, if_neg hc]
      have he : ReadmeContentCleaner.emitNl k = List.replicate k '\n' := by
        simp only [ReadmeContentCleaner.emitNl]
        congr 1
        omega
      rw [he, collapseNlGo_replicate k (c :: ReadmeContentCleaner.collapseNlGo rest 0) 0]
      simp only [ReadmeContentCleaner.collapseNlGo, if_neg hc, Nat.zero_add]
      rw [ih 0 (by omega), he]

theorem lowerChar_not_upper (c : Char)
    (h : c ∉ ['A', 'B', 'C', 'D', 'E', 'F', 'G', 'H', 'I', 'J', 'K', 'L', 'M',
              'N', 'O', 'P', 'Q', 'R', 'S', 'T', 'U', 'V', 'W', 'X', 'Y', 'Z']) :
    lowerChar c = c := by
  unfold lowerChar
  split <;> simp_all

theorem lowerChar_idem (c : Char) : lowerChar (lowerChar c) = lowerChar c := by
  by_cases h : c ∈ ['A', 'B', 'C', 'D', 'E', 'F', 'G', 'H', 'I', 'J', 'K', 'L',
      'M', 'N', 'O', 'P', 'Q', 'R', 'S', 'T', 'U', 'V', 'W', 'X', 'Y', 'Z']
  · fin_cases h <;> rfl
  · simp [lowerChar_not_upper c h]

theorem toLowerStr_idem (l : List Char) : toLowerStr (toLowerStr l) = toLowerStr l := by
  simp only [toLowerStr, List.map_map]
  exact List.map_congr_left (fun a _ => lowerChar_idem a)

/-- The block scanner's language field is always a lower-cased tag. -/
def LangInv (lang : List Char) : Prop := lang = toLowerStr lang

theorem extractLanguage_langInv (t : List Char) :
    LangInv (ExampleExtractor.extractLanguage t) := by
  unfold LangInv ExampleExtractor.extractLanguage
  dsimp only
  split
  · split
    · decide
    · exact (toLowerStr_idem _).symm
  · decide

theorem stepState_lang_cases (st : ExampleExtractor.ScanState) (line : List Char) :
    (ExampleExtractor.stepState st line).lang = st.lang ∨
    (ExampleExtractor.stepState st line).lang =
      ExampleExtractor.extractLanguage (trimStr line) := by
  unfold ExampleExtractor.stepState
  dsimp only
  split_ifs <;> simp

theorem stepState_langInv (st : ExampleExtractor.ScanState) (line : List Char)
    (h : LangInv st.lang) : LangInv (ExampleExtractor.stepState st line).lang := by
  rcases stepState_lang_cases st line with hc | hc
  · rw [hc]; exact h
  · rw [hc]; exact extractLanguage_langInv _

theorem isLikely_facts (code lang sec : List Char)
    (h : ExampleExtractor.isLikelyUsageExample code lang sec = true) :
    ExampleExtractor.MIN_CODE_BLOCK_LENGTH ≤ (trimStr code).length ∧
    (trimStr code).length ≤ ExampleExtractor.MAX_CODE_BLOCK_LENGTH ∧
    (lang = [] ∨ ExampleExtractor.isRelevantLanguage lang = true) := by
  rw [ExampleExtractor.isLikelyUsageExample] at h
  split_ifs at h with h1 h2 h3
  simp at h1 h2
  refine ⟨by omega, by omega, ?_⟩
  tauto

theorem stepEmit_cases (st : ExampleExtractor.ScanState) (line : List Char) :
    ExampleExtractor.stepEmit st line = [] ∨
    ∃ st1 : ExampleExtractor.ScanState,
      ExampleExtractor.stepEmit st line = [ExampleExtractor.mkBlockExample st1] ∧
      st1.lang = st.lang ∧
      ExampleExtractor.isLikelyUsageExample st1.body st1.lang st1.sec = true := by
  unfold ExampleExtractor.stepEmit
  dsimp only
  split_ifs <;> first
    | (left; rfl)
    | (right; exact ⟨_, rfl, rfl, by assumption⟩)

theorem stepEmit_facts (st : ExampleExtractor.ScanState) (line : List Char)
    (e : UsageExample) (hinv : LangInv st.lang)
    (he : e ∈ ExampleExtractor.stepEmit st line) :
    e.language ∈ ["python".data, "py".data, "bash".data, "shell".data,
                  "sh".data, "text".data] ∧
    ExampleExtractor.MIN_CODE_BLOCK_LENGTH ≤ e.code.length ∧
    e.code.length ≤ ExampleExtractor.MAX_CODE_BLOCK_LENGTH := by
  rcases stepEmit_cases st line with h0 | ⟨st1, heq, hlang, hlik⟩
  · rw [h0] at he
    simp at he
  · rw [heq] at he
    simp only [List.mem_singleton] at he
    subst he
    have hfacts := isLikely_facts _ _ _ hlik
    have hinv1 : LangInv st1.lang := by rw [hlang]; exact hinv
    refine ⟨?_, hfacts.1, hfacts.2.1⟩
    unfold ExampleExtractor.mkBlockExample
    dsimp only
    split
    · simp
    · rename_i hne
      rcases hfacts.2.2 with h0 | h0
      · exact absurd h0 hne
      · unfold ExampleExtractor.isRelevantLanguage at h0
        rw [← hinv1] at h0
        replace h0 : st1.lang ∈ ["python".data, "py".data, "bash".data,
            "shell".data, "sh".data, "text".data, ([] : List Char)] := by
          simpa using h0
        simp only [List.mem_cons, List.mem_singleton] at h0 ⊢
        rcases h0 with h | h | h | h | h | h | h <;> first
          | (exact absurd h hne) | tauto

theorem scanLines_mem_facts (lines : List (List Char)) :
    ∀ (st : ExampleExtractor.ScanState) (e : UsageExample), LangInv st.lang →
      e ∈ ExampleExtractor.scanLines lines st →
      e.language ∈ ["python".data, "py".data, "bash".data, "shell".data,
                    "sh".data, "text".data] ∧
      ExampleExtractor.MIN_CODE_BLOCK_LENGTH ≤ e.code.length ∧
      e.code.length ≤ ExampleExtractor.MAX_CODE_BLOCK_LENGTH := by
  induction lines with
  | nil =>
    intro st e _ he
    simp [ExampleExtractor.scanLines] at he
  | cons line rest ih =>
    intro st e hinv he
    rw [ExampleExtractor.scanLines] at he
    rcases List.mem_append.mp he with he | he
    · exact stepEmit_facts st line e hinv he
    · exact ih (ExampleExtractor.stepState st line) e (stepState_langInv st line hinv) he

theorem extractBlockExamples_facts (text : List Char) (e : UsageExample)
    (he : e ∈ ExampleExtractor.extractBlockExamples text) :
    e.language ∈ ["python".data, "py".data, "bash".data, "shell".data,
                  "sh".data, "text".data] ∧
    ExampleExtractor.MIN_CODE_BLOCK_LENGTH ≤ e.code.length ∧
    e.code.length ≤ ExampleExtractor.MAX_CODE_BLOCK_LENGTH :=
  scanLines_mem_facts (splitLines text) ExampleExtractor.initState e rfl he

theorem extractInlineExamples_lang (text : List Char) (e : UsageExample)
    (he : e ∈ ExampleExtractor.extractInlineExamples text) :
    e.language = "python".data := by
  unfold ExampleExtractor.extractInlineExamples at he
  rcases List.mem_filterMap.mp he with ⟨sp, _, hsp⟩
  dsimp only at hsp
  split_ifs at hsp with h
  simp only [Option.some_inj] at hsp
  subst hsp
  rfl

theorem insertDesc_perm (e : UsageExample) (l : List UsageExample) :
    (ExampleProcessor.insertDesc e l).Perm (e :: l) := by
  induction l with
  | nil => simp [ExampleProcessor.insertDesc]
  | cons x xs ih =>
    rw [ExampleProcessor.insertDesc]
    split_ifs
    · exact List.Perm.refl _
    · exact (List.Perm.cons x ih).trans (List.Perm.swap e x xs)

theorem sortExamples_perm (l : List UsageExample) :
    (ExampleProcessor.sortExamplesByRelevance l).Perm l := by
  induction l with
  | nil => simp [ExampleProcessor.sortExamplesByRelevance]
  | cons a l ih =>
    have h1 : ExampleProcessor.sortExamplesByRelevance (a :: l) =
        ExampleProcessor.insertDesc a (ExampleProcessor.sortExamplesByRelevance l) := rfl
    rw [h1]
    exact (insertDesc_perm a _).trans (List.Perm.cons a ih)

theorem dedupGo_subset (l : List UsageExample) :
    ∀ seen, ExampleProcessor.dedupGo l seen ⊆ l := by
  induction l with
  | nil => intro seen; simp [ExampleProcessor.dedupGo]
  | cons e rest ih =>
    intro seen
    rw [ExampleProcessor.dedupGo]
    split_ifs
    · exact (ih seen).trans (List.subset_cons_self e rest)
    · intro x hx
      rcases List.mem_cons.mp hx with hx | hx
      · exact hx ▸ List.mem_cons_self e rest
      · exact List.mem_cons_of_mem e (ih _ hx)

theorem service_mem_sub (text : List Char) (e : UsageExample)
    (he : e ∈ ReadmeService.extractUsageExamples text) :
    e ∈ ExampleExtractor.extractBlockExamples text ∨
    e ∈ ExampleExtractor.extractInlineExamples text := by
  unfold ReadmeService.extractUsageExamples at he
  have h1 : e ∈ ExampleProcessor.deduplicateExamples
      (ExampleExtractor.extractUsageExamples text) :=
    (sortExamples_perm _).subset he
  have h2 : e ∈ ExampleExtractor.extractUsageExamples text :=
    dedupGo_subset _ [] h1
  unfold ExampleExtractor.extractUsageExamples at h2
  have h3 := List.take_subset ExampleExtractor.MAX_EXAMPLES _ h2
  exact List.mem_append.mp h3

theorem dedupGo_keys (l : List UsageExample) :
    ∀ seen : List (List Char),
      ((ExampleProcessor.dedupGo l seen).map ExampleProcessor.keyOf).Nodup ∧
      ∀ k ∈ (ExampleProcessor.dedupGo l seen).map ExampleProcessor.keyOf,
        k ∉ seen := by
  induction l with
  | nil => intro seen; simp [ExampleProcessor.dedupGo]
  | cons e rest ih =>
    intro seen
    rw [ExampleProcessor.dedupGo]
    split_ifs with hmem
    · exact ih seen
    · obtain ⟨ihn, ihs⟩ := ih (ExampleProcessor.keyOf e :: seen)
      constructor
      · simp only [List.map_cons, List.nodup_cons]
        refine ⟨fun hk => ?_, ihn⟩
        have hni := ihs _ hk
        simp at hni
      · intro k hk
        simp only [List.map_cons, List.mem_cons] at hk
        rcases hk with hk | hk
        · exact hk ▸ hmem
        · intro hkseen
          exact ihs _ hk (List.mem_cons_of_mem _ hkseen)

theorem dedupGo_length_le (l : List UsageExample) :
    ∀ seen, (ExampleProcessor.dedupGo l seen).length ≤ l.length := by
  induction l with
  | nil => intro seen; simp [ExampleProcessor.dedupGo]
  | cons e rest ih =>
    intro seen
    rw [ExampleProcessor.dedupGo]
    split_ifs
    · exact le_trans (ih seen) (by simp)
    · simpa using ih (ExampleProcessor.keyOf e :: seen)

theorem dedupGo_eq_keepFirst (l : List UsageExample) :
    ∀ seen, ExampleProcessor.dedupGo l seen =
      keepFirstByKeySpec
        (l.filter (fun x => ExampleProcessor.keyOf x ∉ seen)) := by
  induction l with
  | nil => intro seen; simp [ExampleProcessor.dedupGo, keepFirstByKeySpec]
  | cons e rest ih =>
    intro seen
    rw [ExampleProcessor.dedupGo]
    split_ifs with hmem
    · rw [ih seen, List.filter_cons]
      simp [hmem]
    · rw [List.filter_cons]
      have hd : decide (ExampleProcessor.keyOf e ∉ seen) = true := by
        simpa using hmem
      rw [hd]
      simp only [if_true]
      rw [keepFirstByKeySpec, ih (ExampleProcessor.keyOf e :: seen)]
      have hfe : List.filter
          (fun x => decide (ExampleProcessor.keyOf x ∉
            ExampleProcessor.keyOf e :: seen)) rest =
          List.filter (fun x =>
              decide (ExampleProcessor.keyOf x ≠ ExampleProcessor.keyOf e))
            (List.filter (fun x => decide (ExampleProcessor.keyOf x ∉ seen))
              rest) := by
        rw [List.filter_filter]
        apply List.filter_congr
        intro a _
        by_cases h1 : ExampleProcessor.keyOf a = ExampleProcessor.keyOf e <;>
          by_cases h2 : ExampleProcessor.keyOf a ∈ seen <;>
            simp [h1, h2]
      rw [hfe]

theorem insertDesc_sorted (e : UsageExample) (l : List UsageExample)
    (h : l.Pairwise (fun a b => ExampleProcessor.calculateRelevanceScore b ≤
      ExampleProcessor.calculateRelevanceScore a)) :
    (ExampleProcessor.insertDesc e l).Pairwise
      (fun a b => ExampleProcessor.calculateRelevanceScore b ≤
        ExampleProcessor.calculateRelevanceScore a) := by
  induction l with
  | nil => simp [ExampleProcessor.insertDesc]
  | cons x xs ih =>
    rw [ExampleProcessor.insertDesc]
    split_ifs with hle
    · refine List.Pairwise.cons ?_ h
      intro y hy
      rcases List.mem_cons.mp hy with rfl | hy
      · exact hle
      · exact le_trans (List.rel_of_pairwise_cons h hy) hle
    · rcases List.pairwise_cons.mp h with ⟨hx, hxs⟩
      refine List.Pairwise.cons ?_ (ih hxs)
      intro y hy
      have hy2 := (insertDesc_perm e xs).subset hy
      rcases List.mem_cons.mp hy2 with rfl | hy2
      · exact le_of_lt (lt_of_not_le hle)
      · exact hx y hy2

theorem sortExamples_sorted (l : List UsageExample) :
    (ExampleProcessor.sortExamplesByRelevance l).Pairwise
      (fun a b => ExampleProcessor.calculateRelevanceScore b ≤
        ExampleProcessor.calculateRelevanceScore a) := by
  induction l with
  | nil => simp [ExampleProcessor.sortExamplesByRelevance]
  | cons a l ih => exact insertDesc_sorted a _ ih

theorem insertDesc_filter (e : UsageExample) (l : List UsageExample) (s : Int) :
    (ExampleProcessor.insertDesc e l).filter
        (fun x => ExampleProcessor.calculateRelevanceScore x = s) =
      if ExampleProcessor.calculateRelevanceScore e = s then
        e :: l.filter (fun x => ExampleProcessor.calculateRelevanceScore x = s)
      else l.filter (fun x => ExampleProcessor.calculateRelevanceScore x = s) := by
  induction l with
  | nil =>
    rw [ExampleProcessor.insertDesc]
    by_cases hs : ExampleProcessor.calculateRelevanceScore e = s <;>
      simp [List.filter_cons, hs]
  | cons x xs ih =>
    rw [ExampleProcessor.insertDesc]
    by_cases hle : ExampleProcessor.calculateRelevanceScore x ≤
        ExampleProcessor.calculateRelevanceScore e
    · rw [if_pos hle]
      by_cases hs : ExampleProcessor.calculateRelevanceScore e = s <;>
        by_cases hxs : ExampleProcessor.calculateRelevanceScore x = s <;>
          simp [List.filter_cons, hs, hxs]
    · rw [if_neg hle]
      have hlt : ExampleProcessor.calculateRelevanceScore e <
          ExampleProcessor.calculateRelevanceScore x := lt_of_not_le hle
      by_cases hs : ExampleProcessor.calculateRelevanceScore e = s <;>
        by_cases hxs : ExampleProcessor.calculateRelevanceScore x = s <;>
          simp [List.filter_cons, hs, hxs, ih] <;>
            first | rfl | (exfalso; omega)

theorem sortExamples_filter (l : List UsageExample) (s : Int) :
    (ExampleProcessor.sortExamplesByRelevance l).filter
        (fun x => ExampleProcessor.calculateRelevanceScore x = s) =
      l.filter (fun x => ExampleProcessor.calculateRelevanceScore x = s) := by
  induction l with
  | nil => simp [ExampleProcessor.sortExamplesByRelevance]
  | cons a l ih =>
    have h1 : ExampleProcessor.sortExamplesByRelevance (a :: l) =
        ExampleProcessor.insertDesc a (ExampleProcessor.sortExamplesByRelevance l) :=
      rfl
    rw [h1, insertDesc_filter, List.filter_cons]
    by_cases hs : ExampleProcessor.calculateRelevanceScore a = s <;> simp [hs, ih]

theorem calcScore_eq_spec (e : UsageExample) :
    ExampleProcessor.calculateRelevanceScore e = specRelevanceScore e := by
  unfold ExampleProcessor.calculateRelevanceScore specRelevanceScore
  dsimp only
  cases hd : e.description with
  | none =>
    simp only [hd]
    generalize containsSub "import ".data e.code = b1
    generalize containsSub "from ".data e.code = b2
    generalize (containsSub "=".data e.code && !containsSub "==".data e.code) = b3
    generalize ExampleProcessor.containsCallPattern e.code = b4
    generalize (!e.title.isEmpty && ExampleProcessor.isGoodTitle e.title) = b5
    generalize e.code.length = n
    cases b1 <;> cases b2 <;> cases b3 <;> cases b4 <;> cases b5 <;>
      simp [ExampleProcessor.IDEAL_EXAMPLE_LENGTH] <;> split_ifs <;> omega
  | some l =>
    cases l with
    | nil =>
      simp only [hd]
      generalize containsSub "import ".data e.code = b1
      generalize containsSub "from ".data e.code = b2
      generalize (containsSub "=".data e.code && !containsSub "==".data e.code) = b3
      generalize ExampleProcessor.containsCallPattern e.code = b4
      generalize (!e.title.isEmpty && ExampleProcessor.isGoodTitle e.title) = b5
      generalize e.code.length = n
      cases b1 <;> cases b2 <;> cases b3 <;> cases b4 <;> cases b5 <;>
        simp [ExampleProcessor.IDEAL_EXAMPLE_LENGTH] <;> split_ifs <;> omega
    | cons c cs =>
      simp only [hd]
      generalize containsSub "import ".data e.code = b1
      generalize containsSub "from ".data e.code = b2
      generalize (containsSub "=".data e.code && !containsSub "==".data e.code) = b3
      generalize ExampleProcessor.containsCallPattern e.code = b4
      generalize (!e.title.isEmpty && ExampleProcessor.isGoodTitle e.title) = b5
      generalize e.code.length = n
      cases b1 <;> cases b2 <;> cases b3 <;> cases b4 <;> cases b5 <;>
        simp [ExampleProcessor.IDEAL_EXAMPLE_LENGTH] <;> split_ifs <;> omega

theorem stepEmit_nofence (st : ExampleExtractor.ScanState) (line : List Char)
    (h : startsWithStr fenceMark (trimStr line) = false) :
    ExampleExtractor.stepEmit st line = [] := by
  unfold ExampleExtractor.stepEmit
  dsimp only
  rw [h]
  simp

theorem stepEmit_outBlock (st : ExampleExtractor.ScanState) (line : List Char)
    (h : st.inBlock = false) : ExampleExtractor.stepEmit st line = [] := by
  unfold ExampleExtractor.stepEmit
  dsimp only
  split_ifs <;> simp_all

theorem stepEmit_length_le (st : ExampleExtractor.ScanState) (line : List Char) :
    (ExampleExtractor.stepEmit st line).length ≤ 1 := by
  rcases stepEmit_cases st line with h0 | ⟨st1, heq, _, _⟩
  · simp [h0]
  · simp [heq]

theorem stepState_inBlock_nofence (st : ExampleExtractor.ScanState)
    (line : List Char) (h : startsWithStr fenceMark (trimStr line) = false) :
    (ExampleExtractor.stepState st line).inBlock = st.inBlock := by
  unfold ExampleExtractor.stepState
  dsimp only
  rw [h]
  split_ifs <;> simp_all

theorem stepState_inBlock_fence (st : ExampleExtractor.ScanState)
    (line : List Char) (h : startsWithStr fenceMark (trimStr line) = true) :
    (ExampleExtractor.stepState st line).inBlock = !st.inBlock := by
  unfold ExampleExtractor.stepState
  dsimp only
  rw [h]
  split_ifs <;> simp_all

theorem scanLines_append (a b : List (List Char)) :
    ∀ st, ExampleExtractor.scanLines (a ++ b) st =
      ExampleExtractor.scanLines a st ++
        ExampleExtractor.scanLines b (ExampleExtractor.stateAfter a st) := by
  induction a with
  | nil =>
    intro st
    simp [ExampleExtractor.scanLines, ExampleExtractor.stateAfter]
  | cons line rest ih =>
    intro st
    simp only [List.cons_append, ExampleExtractor.scanLines,
      ExampleExtractor.stateAfter, List.append_eq]
    rw [ih]
    simp [List.append_assoc]

theorem scanLines_inBlock_nofence (post : List (List Char)) :
    ∀ st : ExampleExtractor.ScanState, st.inBlock = true →
      (∀ lp ∈ post, startsWithStr fenceMark (trimStr lp) = false) →
      ExampleExtractor.scanLines post st = [] := by
  induction post with
  | nil => intro st _ _; rfl
  | cons line rest ih =>
    intro st hin hnf
    have hline := hnf line (List.mem_cons_self _ _)
    rw [ExampleExtractor.scanLines, stepEmit_nofence st line hline,
      ih _ (by rw [stepState_inBlock_nofence st line hline]; exact hin)
        (fun lp hlp => hnf lp (List.mem_cons_of_mem _ hlp))]
    rfl

theorem scanLines_length_le (lines : List (List Char)) :
    ∀ st : ExampleExtractor.ScanState,
      2 * (ExampleExtractor.scanLines lines st).length ≤
        lines.countP (fun lp => startsWithStr fenceMark (trimStr lp)) +
          (if st.inBlock then 1 else 0) := by
  induction lines with
  | nil =>
    intro st
    simp only [ExampleExtractor.scanLines, List.length_nil, List.countP_nil]
    split_ifs <;> omega
  | cons line rest ih =>
    intro st
    rw [ExampleExtractor.scanLines, List.length_append, List.countP_cons]
    have hrec := ih (ExampleExtractor.stepState st line)
    have hemit := stepEmit_length_le st line
    by_cases hf : startsWithStr fenceMark (trimStr line) = true
    · have hstate := stepState_inBlock_fence st line hf
      rw [hstate] at hrec
      have hcnt : (if (fun lp => startsWithStr fenceMark (trimStr lp)) line
          then 1 else 0) = 1 := by simp [hf]
      rw [hcnt]
      cases hb : st.inBlock with
      | true =>
        rw [hb] at hrec
        simp only [Bool.not_true] at hrec
        simp [hb] at hrec ⊢
        omega
      | false =>
        have he0 := stepEmit_outBlock st line hb
        rw [he0] at hemit ⊢
        rw [hb] at hrec
        simp only [Bool.not_false] at hrec
        simp [hb] at hrec ⊢
        omega
    · have hf2 : startsWithStr fenceMark (trimStr line) = false := by
        simpa using hf
      have he0 := stepEmit_nofence st line hf2
      have hstate := stepState_inBlock_nofence st line hf2
      rw [hstate] at hrec
      rw [he0]
      have hcnt : (if (fun lp => startsWithStr fenceMark (trimStr lp)) line
          then 1 else 0) = 0 := by simp [hf2]
      rw [hcnt]
      simp only [List.length_nil]
      omega

/-! ## Claim theorems -/

/-- C1: totality and fail-open of the two entry points.  In this shallow
embedding both entry points are total Lean functions, so they return
normally on every input string and the source's `catch` branches are
unreachable; concretely, cleaning the empty string gives the empty string,
extraction on the empty string gives the empty list, and whitespace-only
input and input with an unclosed fence also extract to the empty list. -/
theorem c1_entry_points_total_and_empty :
    ReadmeService.cleanReadmeContent "".data = "".data ∧
    ReadmeService.extractUsageExamples "".data = [] ∧
    ReadmeService.cleanReadmeContent "   \n\n  \t  \n".data = "".data ∧
    ReadmeService.extractUsageExamples "   \n\n  \t  \n".data = [] ∧
    ReadmeService.extractUsageExamples "```python\nimport os".data = [] := by
  refine ⟨?_, ?_, ?_, ?_, ?_⟩ <;> decide

/-- C2 counterexample: an input consisting only of a ```bash fence containing
`pip install foo` yields NO example from the pipeline (the claim says exactly
one example with language `bash`). -/
theorem c2_counterexample_install_block_rejected :
    ReadmeService.extractUsageExamples "```bash\npip install foo\n```".data
      = [] := by
  decide

/-- C2 amended: the install-command acceptance exists only in the legacy
`ReadmeParser` classifier, which accepts a bash block containing
`pip install`; the current `ExampleExtractor` classifier has no install rule
and rejects a bare `pip install foo` bash block as output-only (it contains
none of the Python-keyword substrings), accepting a bash block only when a
Python keyword substring and a usage indicator are present. -/
theorem c2_amended_install_rule_location :
    ExampleExtractor.isLikelyUsageExample "pip install foo\n".data "bash".data
      [] = false ∧
    ExampleExtractor.isOutputOnly (trimStr "pip install foo\n".data) = true ∧
    ExampleExtractor.isLikelyUsageExample "x = 1 # pip install foo\n".data
      "bash".data [] = true ∧
    ReadmeParser.isLikelyUsageExample "pip install foo\n".data "bash".data
      [] = true := by
  refine ⟨?_, ?_, ?_, ?_⟩ <;> decide

/-- C3 counterexample: cleaning is not idempotent — on `"a\n\n \nb"` the
trailing-whitespace strip (which runs after the newline collapse) creates a
new run of three newlines, which only a second pass collapses. -/
theorem c3_counterexample_clean_not_idempotent :
    ReadmeService.cleanReadmeContent
        (ReadmeService.cleanReadmeContent "a\n\n \nb".data) ≠
      ReadmeService.cleanReadmeContent "a\n\n \nb".data := by
  decide

/-- C3 amended: the composite cleaning operation is not idempotent, because
steps running after the blank-line collapse (trailing-whitespace removal,
CRLF normalization, comment removal) can create new runs of three or more
newlines; the blank-line collapse step itself is idempotent on every
string. -/
theorem c3_amended_collapse_step_idempotent (cs : List Char) :
    ReadmeContentCleaner.collapseNl (ReadmeContentCleaner.collapseNl cs) =
      ReadmeContentCleaner.collapseNl cs :=
  collapseNlGo_idem cs 0 (by omega)

/-- C4 counterexample: the cleaner does not strip HTML tags — on input
`"a <b>x</b> c"` the output still contains the tag `<b>` (and equals the
input), contradicting the claim that every HTML tag is stripped. -/
theorem c4_counterexample_tags_not_stripped :
    ReadmeService.cleanReadmeContent "a <b>x</b> c".data
        = "a <b>x</b> c".data ∧
    containsSub "<b>".data
      (ReadmeService.cleanReadmeContent "a <b>x</b> c".data) = true := by
  refine ⟨?_, ?_⟩ <;> decide

/-- C4 amended: the service cleaner removes HTML comments (including
multi-line ones) but leaves HTML tags untouched, so the text between tags is
trivially preserved; tag stripping exists only in the legacy
`ReadmeParser.cleanReadmeContent`. -/
theorem c4_amended_comments_removed_tags_kept :
    ReadmeService.cleanReadmeContent "a<!-- one\ntwo -->b".data = "ab".data ∧
    ReadmeService.cleanReadmeContent "x<!-- c1 --> mid <!-- c2 -->y".data
      = "x mid y".data ∧
    ReadmeService.cleanReadmeContent "a <b>x</b> <img src=q/> c".data
      = "a <b>x</b> <img src=q/> c".data := by
  refine ⟨?_, ?_, ?_⟩ <;> decide

/-- C5 counterexample: aliases are NOT mapped to canonical names before
storage — a ```py block is stored with language `"py"`, not `"python"`
(the inline duplicate of the same input is stored as `"python"`). -/
theorem c5_counterexample_alias_unmapped :
    (ReadmeService.extractUsageExamples
        "```py\nimport os, sys\n```".data).map (fun e => e.language)
      = ["py".data, "python".data] ∧
    "py".data ≠ "python".data := by
  refine ⟨?_, ?_⟩ <;> decide

/-- C5 amended: every example returned by the pipeline has a language in the
closed set `python, py, bash, shell, sh, text` — the current extractor
stores the raw lower-cased tag (defaulting to `python` for an untagged
fence) without alias mapping, and non-relevant tags never survive the
classifier; the alias table of the claim lives only in the legacy
`ReadmeParser.extractLanguage`, which does map aliases to canonical names
and passes unrecognized tags through lower-cased. -/
theorem c5_amended_language_closure :
    (∀ (text : List Char) (e : UsageExample),
      e ∈ ReadmeService.extractUsageExamples text →
      e.language ∈ ["python".data, "py".data, "bash".data, "shell".data,
                    "sh".data, "text".data]) ∧
    ReadmeParser.extractLanguage "```py".data = "python".data ∧
    ReadmeParser.extractLanguage "```python3".data = "python".data ∧
    ReadmeParser.extractLanguage "```shell".data = "bash".data ∧
    ReadmeParser.extractLanguage "```sh".data = "bash".data ∧
    ReadmeParser.extractLanguage "```console".data = "bash".data ∧
    ReadmeParser.extractLanguage "```terminal".data = "bash".data ∧
    ReadmeParser.extractLanguage "```cmd".data = "bash".data ∧
    ReadmeParser.extractLanguage "```yml".data = "yaml".data ∧
    ReadmeParser.extractLanguage "```cfg".data = "ini".data ∧
    ReadmeParser.extractLanguage "```conf".data = "ini".data ∧
    ReadmeParser.extractLanguage "```JavaScript".data = "javascript".data ∧
    ReadmeParser.extractLanguage "```".data = "python".data ∧
    ExampleExtractor.extractLanguage "```py".data = "py".data ∧
    ExampleExtractor.extractLanguage "```PY".data = "py".data ∧
    ExampleExtractor.extractLanguage "```".data = "python".data := by
  refine ⟨?_, by decide, by decide, by decide, by decide, by decide, by decide,
    by decide, by decide, by decide, by decide, by decide, by decide,
    by decide, by decide, by decide⟩
  intro text e he
  rcases service_mem_sub text e he with hb | hi
  · exact (extractBlockExamples_facts text e hb).1
  · rw [extractInlineExamples_lang text e hi]
    simp

/-- C5 witness: the language-closure clause applied to a concrete input and
the concrete example it returns. -/
theorem c5_language_closure_witness :
    ({ title := "Code Example".data, description := none,
       code := "import os, sys".data,
       language := "py".data } : UsageExample).language ∈
      ["python".data, "py".data, "bash".data, "shell".data, "sh".data,
       "text".data] :=
  c5_amended_language_closure.1 "```py\nimport os, sys\n```".data _ (by decide)

/-- C7 counterexample: an inline code span shorter than the minimum survives
to the output — input `` `a=1` `` yields the example `a=1` whose code length
is 3, below the claimed lower bound of 10. -/
theorem c7_counterexample_inline_below_min :
    ReadmeService.extractUsageExamples "`a=1`".data =
      [{ title := "Quick Example".data, description := none,
         code := "a=1".data, language := "python".data }] ∧
    ("a=1".data.length < ExampleExtractor.MIN_CODE_BLOCK_LENGTH) := by
  refine ⟨?_, ?_⟩ <;> decide

/-- C7 amended: the length bound holds for fenced-block examples only —
every example produced by the block extractor has code length within
`[MIN_CODE_BLOCK_LENGTH, MAX_CODE_BLOCK_LENGTH]` = `[10, 5000]`; inline-span
examples are subject to no length check at all. -/
theorem c7_amended_block_length_bounds (text : List Char) (e : UsageExample)
    (he : e ∈ ExampleExtractor.extractBlockExamples text) :
    ExampleExtractor.MIN_CODE_BLOCK_LENGTH ≤ e.code.length ∧
    e.code.length ≤ ExampleExtractor.MAX_CODE_BLOCK_LENGTH :=
  ⟨(extractBlockExamples_facts text e he).2.1,
   (extractBlockExamples_facts text e he).2.2⟩

/-- C7 witness: the block-length bound applied to a concrete input and the
concrete block example it produces. -/
theorem c7_block_length_bounds_witness :
    ExampleExtractor.MIN_CODE_BLOCK_LENGTH ≤
      ({ title := "Code Example".data, description := none,
         code := "import os, sys".data,
         language := "py".data } : UsageExample).code.length ∧
    ({ title := "Code Example".data, description := none,
       code := "import os, sys".data,
       language := "py".data } : UsageExample).code.length ≤
      ExampleExtractor.MAX_CODE_BLOCK_LENGTH :=
  c7_amended_block_length_bounds "```py\nimport os, sys\n```".data _ (by decide)

/-- C6: no-duplicates invariant — for every input, no two elements of the
pipeline's output share the same normalized-code key, and the deduplication
pass equals the spec's keep-the-first-occurrence-per-key function (so when
several examples share a key, the first in extraction order is kept). -/
theorem c6_no_duplicates :
    (∀ text : List Char,
      ((ReadmeService.extractUsageExamples text).map
        ExampleProcessor.keyOf).Nodup) ∧
    (∀ l : List UsageExample,
      ExampleProcessor.deduplicateExamples l = keepFirstByKeySpec l) := by
  constructor
  · intro text
    have hd := (dedupGo_keys (ExampleExtractor.extractUsageExamples text) []).1
    have hp : (ReadmeService.extractUsageExamples text).Perm
        (ExampleProcessor.deduplicateExamples
          (ExampleExtractor.extractUsageExamples text)) :=
      sortExamples_perm _
    exact ((hp.map ExampleProcessor.keyOf).nodup_iff).mpr hd
  · intro l
    have h := dedupGo_eq_keepFirst l []
    simpa [ExampleProcessor.deduplicateExamples] using h

/-- C8: ranking correctness — the pipeline's output is sorted in descending
relevance-score order; the sort is a permutation; ties preserve relative
input order (for every score value, filtering the sorted list by that score
gives exactly the input's elements of that score, in input order); and the
score function is precisely the claim's additive total (`specRelevanceScore`:
+50 import, +45 from, +30 non-equality `=`, +25 call pattern, +20 good
title, +15 non-empty description, +10 for length in `[50, 200]`, minus
`(length − 200) / 100` beyond 200). -/
theorem c8_ranking_correctness :
    (∀ text : List Char,
      (ReadmeService.extractUsageExamples text).Pairwise
        (fun a b => ExampleProcessor.calculateRelevanceScore b ≤
          ExampleProcessor.calculateRelevanceScore a)) ∧
    (∀ l : List UsageExample,
      (ExampleProcessor.sortExamplesByRelevance l).Perm l) ∧
    (∀ (l : List UsageExample) (s : Int),
      (ExampleProcessor.sortExamplesByRelevance l).filter
          (fun x => ExampleProcessor.calculateRelevanceScore x = s) =
        l.filter (fun x => ExampleProcessor.calculateRelevanceScore x = s)) ∧
    (∀ e : UsageExample,
      ExampleProcessor.calculateRelevanceScore e = specRelevanceScore e) := by
  exact ⟨fun text => sortExamples_sorted _, sortExamples_perm,
    sortExamples_filter, calcScore_eq_spec⟩

/-- C9: output cap — for every input the extraction entry point (which takes
only the text, no limit parameter) returns at most `MAX_EXAMPLES = 20`
examples, and so does the full pipeline. -/
theorem c9_output_cap (text : List Char) :
    (ExampleExtractor.extractUsageExamples text).length ≤
      ExampleExtractor.MAX_EXAMPLES ∧
    (ReadmeService.extractUsageExamples text).length ≤
      ExampleExtractor.MAX_EXAMPLES := by
  have h1 : (ExampleExtractor.extractUsageExamples text).length ≤
      ExampleExtractor.MAX_EXAMPLES := by
    unfold ExampleExtractor.extractUsageExamples
    rw [List.length_take]
    exact min_le_left _ _
  refine ⟨h1, ?_⟩
  unfold ReadmeService.extractUsageExamples
  have h2 := (sortExamples_perm (ExampleProcessor.deduplicateExamples
    (ExampleExtractor.extractUsageExamples text))).length_eq
  have h3 := dedupGo_length_le (ExampleExtractor.extractUsageExamples text) []
  unfold ExampleProcessor.deduplicateExamples at h2 ⊢
  omega

/-- C10: unclosed-fence discard — when the line list splits as `pre ++ post`
with the scanner still inside a block after `pre` and no fence line in
`post`, the whole extraction equals the extraction of `pre` alone (the
accumulated unterminated body contributes nothing); moreover examples are
only ever emitted at closing fences, so twice the number of block examples
never exceeds the number of fence lines. -/
theorem c10_unclosed_fence_discard :
    (∀ (text : List Char) (pre post : List (List Char)),
      splitLines text = pre ++ post →
      (ExampleExtractor.stateAfter pre ExampleExtractor.initState).inBlock
        = true →
      (∀ lp ∈ post, startsWithStr fenceMark (trimStr lp) = false) →
      ExampleExtractor.extractBlockExamples text =
        ExampleExtractor.scanLines pre ExampleExtractor.initState) ∧
    (∀ text : List Char,
      2 * (ExampleExtractor.extractBlockExamples text).length ≤
        (splitLines text).countP
          (fun lp => startsWithStr fenceMark (trimStr lp))) := by
  constructor
  · intro text pre post hsplit hin hnf
    unfold ExampleExtractor.extractBlockExamples
    rw [hsplit, scanLines_append, scanLines_inBlock_nofence post _ hin hnf]
    simp
  · intro text
    have h := scanLines_length_le (splitLines text) ExampleExtractor.initState
    unfold ExampleExtractor.extractBlockExamples
    simpa [ExampleExtractor.initState] using h

/-- C10 witness: the suffix-irrelevance clause applied to a concrete input
whose final fenced block is never closed. -/
theorem c10_unclosed_fence_witness :
    ExampleExtractor.extractBlockExamples "a\n```py\nimport os, sys".data =
      ExampleExtractor.scanLines ["a".data, "```py".data]
        ExampleExtractor.initState :=
  c10_unclosed_fence_discard.1 "a\n```py\nimport os, sys".data
    ["a".data, "```py".data] ["import os, sys".data]
    (by decide) (by decide) (by decide)
